import Mathlib

/-!
Verification of the barcode DBTC ownership/lineage ledger.

Shallow embedding of the database layer (src/unnamed/part_001, the module
exporting insertItem, giveAFrag, markAsDead, updateFragsAvailable, addJournal,
shareFrag, selectCollectionPaged, selectFragsForMother, addFan, removeFan,
isFan) and of the relevant routes of src/server/dbtc-router.js (give-a-frag,
tree/:motherId, import).

Modelling conventions:
- SQLite rows become Lean structures; tables become lists inside a Store
  record; autoincrement row ids become explicit nextId counters.
- Integer columns become Nat (ids, timestamps) or Int (fragsAvailable, which
  SQLite lets go negative absent a CHECK constraint).
- Date strings are modelled as abstract instants (Nat); the fixDates
  normalization from the missing dates.js module is treated as the identity
  on these instants, since no claim depends on the textual form of a date.
- An UPDATE statement with a WHERE clause becomes a map over the list that
  rewrites exactly the rows matching the WHERE condition; a SELECT returning
  the first row becomes List.find?.
- db.transaction blocks that can throw (destructuring an empty SELECT
  result) roll back: the operation returns none together with the original
  store.
-/

/-- One row of the frags table. INSERT_FRAG populates all columns except
status (which stays NULL) and hardwires isAlive = 1. -/
structure Frag where
  fragId : Nat
  timestamp : Nat
  motherId : Nat
  ownerId : Nat
  dateAcquired : Nat
  picture : Option String
  notes : Option String
  fragOf : Option Nat
  fragsAvailable : Int
  isAlive : Bool
  status : Option String
deriving Repr, DecidableEq

/-- One row of the mothers table, as populated by INSERT_MOTHER. -/
structure Mother where
  motherId : Nat
  timestamp : Nat
  name : String
  type : String
  scientificName : Option String
  flow : String
  light : String
  hardiness : String
  growthRate : String
  sourceType : Option String
  source : Option String
  cost : Option Int
  size : Option String
  rules : String
  threadId : Option Nat
  threadUrl : Option String
deriving Repr, DecidableEq

/-- One row of the journals table, as populated by INSERT_JOURNAL. -/
structure Journal where
  journalId : Nat
  fragId : Nat
  timestamp : Nat
  entryType : Option String
  picture : Option String
  notes : Option String
deriving Repr, DecidableEq

/-- One row of the fans table. -/
structure Fan where
  motherId : Nat
  userId : Nat
  timestamp : Nat
deriving Repr, DecidableEq

/-- One row of the shares table, as populated by INSERT_SHARE. -/
structure Share where
  shareId : String
  hash : String
  timestamp : Nat
  shareType : String
  json : String
deriving Repr, DecidableEq

/-- The dbtc database. The types and rules tables hold the recognized
enumerated values; the next*Id fields model SQLite autoincrement row ids. -/
structure Store where
  mothers : List Mother
  frags : List Frag
  journals : List Journal
  fans : List Fan
  shares : List Share
  typesTable : List String
  rulesTable : List String
  nextMotherId : Nat
  nextFragId : Nat
  nextJournalId : Nat
deriving Repr, DecidableEq

/-- A store with empty tables, as created by a fresh database with the given
enumeration tables. -/
def emptyStore (types rules : List String) : Store :=
  { mothers := [], frags := [], journals := [], fans := [], shares := []
    typesTable := types, rulesTable := rules
    nextMotherId := 1, nextFragId := 1, nextJournalId := 1 }

/-- The WHERE clause shared by DECREMENT_FRAGS_AVAILABLE,
SELECT_FRAGS_AVAILABLE, UPDATE_FRAGS_AVAILABLE and UPDATE_ALIVE:
fragId = $fragId AND ownerId = $ownerId. -/
def fragMatch (fragId ownerId : Nat) (f : Frag) : Bool :=
  f.fragId == fragId && f.ownerId == ownerId

/-- An UPDATE against the frags table: rewrite with u exactly the rows whose
fragId and ownerId match. -/
def updateWhere (fs : List Frag) (fragId ownerId : Nat) (u : Frag → Frag) :
    List Frag :=
  fs.map (fun f => if fragMatch fragId ownerId f then u f else f)

/-- UPDATE_ALIVE: SET isAlive = 0, fragsAvailable = 0, status = $status
WHERE fragId = $fragId AND ownerId = $ownerId. -/
def updateAlive (fs : List Frag) (fragId ownerId : Nat)
    (status : Option String) : List Frag :=
  updateWhere fs fragId ownerId
    (fun f => { f with isAlive := false, fragsAvailable := 0, status })

/-- DECREMENT_FRAGS_AVAILABLE: SET fragsAvailable =
MAX(fragsAvailable - 1, 0) WHERE fragId = $fragId AND ownerId = $ownerId. -/
def decrementFragsAvailable (fs : List Frag) (fragId ownerId : Nat) :
    List Frag :=
  updateWhere fs fragId ownerId
    (fun f => { f with fragsAvailable := max (f.fragsAvailable - 1) 0 })

/-- SELECT_FRAGS_AVAILABLE: the fragsAvailable column of the first row with
the given fragId and ownerId, if any. -/
def selectFragsAvailable (fs : List Frag) (fragId ownerId : Nat) :
    Option Int :=
  (fs.find? (fragMatch fragId ownerId)).map (·.fragsAvailable)

/-- The values argument of insertItem, after fixDates has filled in the
timestamp. Fields that INSERT_ITEM_NULLABLE_VALUES defaults to null are
Options. -/
structure ItemAttrs where
  timestamp : Nat
  name : String
  type : String
  scientificName : Option String
  flow : String
  light : String
  hardiness : String
  growthRate : String
  sourceType : Option String
  source : Option String
  cost : Option Int
  size : Option String
  rules : String
  threadId : Option Nat
  threadUrl : Option String
  ownerId : Nat
  dateAcquired : Nat
  picture : Option String
  notes : Option String
  fragsAvailable : Int
deriving Repr, DecidableEq

/-- The mother row INSERT_MOTHER creates inside insertItem. -/
def newMotherRow (s : Store) (v : ItemAttrs) : Mother :=
  { motherId := s.nextMotherId, timestamp := v.timestamp, name := v.name
    type := v.type, scientificName := v.scientificName, flow := v.flow
    light := v.light, hardiness := v.hardiness, growthRate := v.growthRate
    sourceType := v.sourceType, source := v.source, cost := v.cost
    size := v.size, rules := v.rules, threadId := v.threadId
    threadUrl := v.threadUrl }

def newRootFrag (s : Store) (v : ItemAttrs) : Frag :=
  { fragId := s.nextFragId, timestamp := v.timestamp
    motherId := s.nextMotherId, ownerId := v.ownerId
    dateAcquired := v.dateAcquired, picture := v.picture, notes := v.notes
    fragOf := none, fragsAvailable := v.fragsAvailable
    isAlive := true, status := none }

/-- insertItem: one transaction that runs INSERT_MOTHER with the bindings and
then INSERT_FRAG with the same bindings plus the new motherId and
fragOf = null, returning [motherId, fragId]. INSERT_FRAG stores the
fragsAvailable binding unchanged and sets isAlive to 1; the root frag row it
creates is named newRootFrag above. -/
def insertItem (s : Store) (v : ItemAttrs) : (Nat × Nat) × Store :=
  ((s.nextMotherId, s.nextFragId),
   { s with
      mothers := s.mothers ++ [newMotherRow s v]
      frags := s.frags ++ [newRootFrag s v]
      nextMotherId := s.nextMotherId + 1
      nextFragId := s.nextFragId + 1 })

/-- The values argument of giveAFrag, after fixDates. values.ownerId is the
recipient and values.fragOf is the id of the source frag; the motherId comes
from the request body. -/
structure GiveValues where
  timestamp : Nat
  motherId : Nat
  ownerId : Nat
  dateAcquired : Nat
  fragOf : Nat
  transfer : Bool
  picture : Option String
  notes : Option String
deriving Repr, DecidableEq

/-- giveAFrag: one transaction that (a) inserts a new frag for the recipient
with fragsAvailable forced to 0; (b) on transfer runs UPDATE_ALIVE on the
source with status transferred and returns [0, fragId]; (c) otherwise runs
DECREMENT_FRAGS_AVAILABLE on the source, re-reads SELECT_FRAGS_AVAILABLE and
returns [fragsAvailable, fragId]. If the re-read returns no row the
destructuring throws and the transaction rolls back (modelled as none with
the original store). The row INSERT_FRAG creates inside giveAFrag is named
newChildFrag: recipient as owner, parent fragOf, counter 0, alive. -/
def newChildFrag (s : Store) (v : GiveValues) : Frag :=
  { fragId := s.nextFragId, timestamp := v.timestamp, motherId := v.motherId
    ownerId := v.ownerId, dateAcquired := v.dateAcquired
    picture := v.picture, notes := v.notes, fragOf := some v.fragOf
    fragsAvailable := 0, isAlive := true, status := none }

def giveAFrag (s : Store) (userId : Nat) (v : GiveValues) :
    Option (Int × Nat) × Store :=
  let fragId := s.nextFragId
  let newFrag : Frag := newChildFrag s v
  let s1 := { s with frags := s.frags ++ [newFrag], nextFragId := fragId + 1 }
  if v.transfer then
    (some (0, fragId),
     { s1 with
        frags := updateAlive s1.frags v.fragOf userId (some "transferred") })
  else
    let s2 :=
      { s1 with frags := decrementFragsAvailable s1.frags v.fragOf userId }
    match selectFragsAvailable s2.frags v.fragOf userId with
    | some n => (some (n, fragId), s2)
    | none => (none, s)

/-- markAsDead: runs UPDATE_ALIVE with the given status (null when the caller
omits it). -/
def markAsDead (s : Store) (ownerId fragId : Nat) (status : Option String) :
    Store :=
  { s with frags := updateAlive s.frags fragId ownerId status }

/-- updateFragsAvailable: one transaction that runs UPDATE_FRAGS_AVAILABLE
(SET fragsAvailable = MAX($fragsAvailable, 0)) and re-reads
SELECT_FRAGS_AVAILABLE,  returning the resulting value. An empty re-read
throws and rolls back. -/
def updateFragsAvailable (s : Store) (ownerId fragId : Nat) (value : Int) :
    Option Int × Store :=
  let s1 :=
    { s with
       frags := updateWhere s.frags fragId ownerId
         (fun f => { f with fragsAvailable := max value 0 }) }
  match selectFragsAvailable s1.frags fragId ownerId with
  | some n => (some n, s1)
  | none => (none, s)

/-- The values argument of addJournal, after fixDates (a caller passing a
null timestamp gets the current time, modelled as the already-resolved
instant carried here). -/
structure JournalAttrs where
  fragId : Nat
  timestamp : Nat
  entryType : Option String
  picture : Option String
  notes : Option String
deriving Repr, DecidableEq

/-- addJournal: one transaction that runs INSERT_JOURNAL and re-reads the
inserted row by journalId, returning it. -/
def addJournal (s : Store) (v : JournalAttrs) : Journal × Store :=
  let journalId := s.nextJournalId
  let j : Journal :=
    { journalId, fragId := v.fragId, timestamp := v.timestamp
      entryType := v.entryType, picture := v.picture, notes := v.notes }
  (j, { s with journals := s.journals ++ [j], nextJournalId := journalId + 1 })

/-- shareFrag. The JSON.stringify serialization of the frag and journals
argument pair arrives here as the json string; the crypto sha256 digest is
an explicit hash function parameter, and the LOWER(HEX(RANDOMBLOB(16)))
value minted for a new share arrives as freshId. The function looks up an
existing share by hash and returns its id without writing; otherwise it
inserts a new share row with shareType frag. -/
def shareFrag (hash : String → String) (freshId : String) (now : Nat)
    (json : String) (s : Store) : String × Store :=
  let h := hash json
  match s.shares.find? (fun r => r.hash == h) with
  | some r => (r.shareId, s)
  | none =>
    (freshId,
     { s with
        shares := s.shares ++
          [{ shareId := freshId, hash := h, timestamp := now
             shareType := "frag", json }] })

/-- ADD_FAN: INSERT OR IGNORE a (motherId, userId) pair. -/
def addFan (s : Store) (userId motherId : Nat) (now : Nat) : Store :=
  if s.fans.any (fun fan => fan.motherId == motherId && fan.userId == userId)
  then s
  else { s with fans := s.fans ++ [{ motherId, userId, timestamp := now }] }

/-- DELETE_FAN: DELETE FROM fans WHERE motherId = $motherId and
userId = $userId. -/
def removeFan (s : Store) (userId motherId : Nat) : Store :=
  { s with
     fans := s.fans.filter
       (fun fan => !(fan.motherId == motherId && fan.userId == userId)) }

/-- isFan: whether SELECT_FAN returns a row. -/
def isFan (s : Store) (userId motherId : Nat) : Bool :=
  (s.fans.find?
    (fun fan => fan.userId == userId && fan.motherId == motherId)).isSome

/-- SELECT_VALID_FRAG joined through validateFrag: the first row of
mothers x frags with the given fragId, the join on motherId, the given
liveness, fragsAvailable strictly greater than the bound and the given
owner. Returns the joined (mother, frag) pair or none. -/
def validateFrag (s : Store) (ownerId fragId : Nat) (isAlive : Bool)
    (fragsAvailable : Int) : Option (Mother × Frag) :=
  (s.frags.find?
    (fun f => f.fragId == fragId && f.isAlive == isAlive &&
      decide (fragsAvailable < f.fragsAvailable) && f.ownerId == ownerId)
  ).bind fun f =>
    (s.mothers.find? (fun m => m.motherId == f.motherId)).map fun m => (m, f)

/-!
Helper lemmas about UPDATE statements against the frags table.
-/

/-- An update that rewrites neither fragId nor ownerId commutes with looking
up the first row matching a fragId/ownerId pair. -/
theorem find?_updateWhere (i o : Nat) (u : Frag → Frag)
    (hu : ∀ f, fragMatch i o (u f) = fragMatch i o f) :
    ∀ fs : List Frag,
      (updateWhere fs i o u).find? (fragMatch i o) =
        (fs.find? (fragMatch i o)).map u := by
  intro fs
  induction fs with
  | nil => rfl
  | cons f fs ih =>
    cases hb : fragMatch i o f with
    | false =>
      simp only [updateWhere, List.map_cons] at ih ⊢
      simp [List.find?_cons, hb, ih]
    | true =>
      simp only [updateWhere, List.map_cons]
      simp [List.find?_cons, hb, hu f]

/-- Looking up the source row after DECREMENT_FRAGS_AVAILABLE. -/
theorem find?_decrement (fs : List Frag) (i o : Nat) :
    (decrementFragsAvailable fs i o).find? (fragMatch i o) =
      (fs.find? (fragMatch i o)).map
        (fun f => { f with fragsAvailable := max (f.fragsAvailable - 1) 0 }) := by
  have hu : ∀ f : Frag,
      fragMatch i o { f with fragsAvailable := max (f.fragsAvailable - 1) 0 } =
        fragMatch i o f := fun _ => rfl
  rw [decrementFragsAvailable]
  exact find?_updateWhere i o _ hu fs

/-- Looking up the source row after UPDATE_ALIVE. -/
theorem find?_updateAlive (fs : List Frag) (i o : Nat) (st : Option String) :
    (updateAlive fs i o st).find? (fragMatch i o) =
      (fs.find? (fragMatch i o)).map
        (fun f => { f with isAlive := false, fragsAvailable := 0,
                           status := st }) := by
  have hu : ∀ f : Frag,
      fragMatch i o { f with isAlive := false, fragsAvailable := 0,
                             status := st } = fragMatch i o f := fun _ => rfl
  rw [updateAlive]
  exact find?_updateWhere i o _ hu fs

/-- The kill update of UPDATE_ALIVE does not touch fragId or ownerId. -/
theorem fragMatch_kill (i o : Nat) (st : Option String) (f : Frag) :
    fragMatch i o { f with isAlive := false, fragsAvailable := 0,
                           status := st } = fragMatch i o f := rfl

/-- The decrement update does not touch fragId or ownerId. -/
theorem fragMatch_dec (i o : Nat) (f : Frag) :
    fragMatch i o { f with fragsAvailable := max (f.fragsAvailable - 1) 0 } =
      fragMatch i o f := rfl

/-- An updateWhere pass keeps the number of rows. -/
theorem length_updateWhere (fs : List Frag) (i o : Nat) (u : Frag → Frag) :
    (updateWhere fs i o u).length = fs.length := by
  simp [updateWhere]

/-- The transfer branch of giveAFrag written as one equation: insert the new
child frag, then UPDATE_ALIVE the source, and return [0, fragId]. -/
theorem giveAFrag_transfer_eq (s : Store) (userId : Nat) (v : GiveValues)
    (ht : v.transfer = true) :
    giveAFrag s userId v =
      (some (0, s.nextFragId),
       { s with
          frags := updateAlive (s.frags ++ [newChildFrag s v]) v.fragOf userId
            (some "transferred")
          nextFragId := s.nextFragId + 1 }) := by
  simp [giveAFrag, ht]

/-- The fresh child row never matches the fragId of an existing source row. -/
theorem fragMatch_newChildFrag (s : Store) (v : GiveValues) (userId : Nat)
    (hfresh : v.fragOf ≠ s.nextFragId) :
    fragMatch v.fragOf userId (newChildFrag s v) = false := by
  have h1 : (s.nextFragId == v.fragOf) = false := by
    simpa using Ne.symm hfresh
  simp [fragMatch, newChildFrag, h1]

/-- C1: giveAFrag with the transfer flag leaves the source frag dead with
counter 0 and status transferred regardless of its prior counter value,
inserts exactly one new live child frag owned by the recipient with the
source as parent, and returns 0 together with the new frag id. The source
frag here is the first row matching (fragOf, giver), and the fresh frag id
is assumed distinct from the source id, as SQLite autoincrement guarantees. -/
theorem giveAFrag_transfer_spec (s : Store) (userId : Nat) (v : GiveValues)
    (f : Frag)
    (ht : v.transfer = true)
    (hfind : s.frags.find? (fragMatch v.fragOf userId) = some f)
    (hfresh : v.fragOf ≠ s.nextFragId) :
    (giveAFrag s userId v).1 = some (0, s.nextFragId) ∧
    (giveAFrag s userId v).2.frags.find? (fragMatch v.fragOf userId) =
      some { f with isAlive := false, fragsAvailable := 0,
                    status := some "transferred" } ∧
    (giveAFrag s userId v).2.frags.length = s.frags.length + 1 ∧
    ∃ g ∈ (giveAFrag s userId v).2.frags,
      g.fragId = s.nextFragId ∧ g.ownerId = v.ownerId ∧
      g.fragOf = some v.fragOf ∧ g.isAlive = true ∧ g.fragsAvailable = 0 := by
  have hfm : ∀ g : Frag,
      fragMatch v.fragOf userId
        { g with isAlive := false, fragsAvailable := 0,
                 status := some "transferred" } =
        fragMatch v.fragOf userId g := fun _ => rfl
  rw [giveAFrag_transfer_eq s userId v ht]
  refine ⟨rfl, ?_, ?_, ?_⟩
  · show (updateAlive (s.frags ++ [newChildFrag s v]) v.fragOf userId
        (some "transferred")).find? (fragMatch v.fragOf userId) = _
    rw [updateAlive, find?_updateWhere _ _ _ hfm, List.find?_append, hfind]
    rfl
  · show (updateAlive (s.frags ++ [newChildFrag s v]) v.fragOf userId
        (some "transferred")).length = s.frags.length + 1
    rw [updateAlive, length_updateWhere]
    simp
  · refine ⟨newChildFrag s v, ?_, rfl, rfl, rfl, rfl, rfl⟩
    show newChildFrag s v ∈ updateAlive (s.frags ++ [newChildFrag s v])
      v.fragOf userId (some "transferred")
    rw [updateAlive, updateWhere]
    refine List.mem_map.2 ⟨newChildFrag s v,
      List.mem_append_right _ (List.mem_singleton.2 rfl), ?_⟩
    simp [fragMatch_newChildFrag s v userId hfresh]

/-- The split branch of giveAFrag written as one match: insert the new child
frag, run DECREMENT_FRAGS_AVAILABLE on the source, re-read the counter. -/
theorem giveAFrag_split_eq (s : Store) (userId : Nat) (v : GiveValues)
    (ht : v.transfer = false) :
    giveAFrag s userId v =
      (match selectFragsAvailable
          (decrementFragsAvailable (s.frags ++ [newChildFrag s v])
            v.fragOf userId) v.fragOf userId with
       | some n =>
         (some (n, s.nextFragId),
          { s with
             frags := decrementFragsAvailable (s.frags ++ [newChildFrag s v])
               v.fragOf userId
             nextFragId := s.nextFragId + 1 })
       | none => (none, s)) := by
  simp [giveAFrag, ht]

/-- A split against a source frag that is present and owned by the giver:
explicit result. The decremented value is re-read through
SELECT_FRAGS_AVAILABLE, which finds the updated source row. -/
theorem giveAFrag_split_step (s : Store) (userId : Nat) (v : GiveValues)
    (f : Frag)
    (ht : v.transfer = false)
    (hfind : s.frags.find? (fragMatch v.fragOf userId) = some f)
    (hfresh : v.fragOf ≠ s.nextFragId) :
    giveAFrag s userId v =
      (some (max (f.fragsAvailable - 1) 0, s.nextFragId),
       { s with
          frags := decrementFragsAvailable (s.frags ++ [newChildFrag s v])
            v.fragOf userId
          nextFragId := s.nextFragId + 1 }) := by
  have hsel : selectFragsAvailable
      (decrementFragsAvailable (s.frags ++ [newChildFrag s v])
        v.fragOf userId) v.fragOf userId =
      some (max (f.fragsAvailable - 1) 0) := by
    rw [selectFragsAvailable, find?_decrement, List.find?_append, hfind]
    rfl
  rw [giveAFrag_split_eq s userId v ht, hsel]

/-- Frag list of the store after a split. -/
theorem giveAFrag_split_frags (s : Store) (userId : Nat) (v : GiveValues)
    (f : Frag)
    (ht : v.transfer = false)
    (hfind : s.frags.find? (fragMatch v.fragOf userId) = some f)
    (hfresh : v.fragOf ≠ s.nextFragId) :
    (giveAFrag s userId v).2.frags =
      decrementFragsAvailable (s.frags ++ [newChildFrag s v])
        v.fragOf userId := by
  rw [giveAFrag_split_step s userId v f ht hfind hfresh]

/-- k sequential splits against the same source frag (the userId and values
of every call coincide; each call mints a fresh child). -/
def splitIter (userId : Nat) (v : GiveValues) : Nat → Store → Store
  | 0, s => s
  | k + 1, s => splitIter userId v k (giveAFrag s userId v).2

/-- Sequential splits drive the counter down one at a time, floored at 0:
starting from counter N, after k splits with k at most N the counter reads
N - k. -/
theorem splitIter_counter (userId : Nat) (v : GiveValues)
    (ht : v.transfer = false) :
    ∀ (k N : Nat) (s : Store) (f : Frag),
      s.frags.find? (fragMatch v.fragOf userId) = some f →
      v.fragOf < s.nextFragId →
      f.fragsAvailable = (N : Int) →
      k ≤ N →
      selectFragsAvailable (splitIter userId v k s).frags v.fragOf userId =
        some ((N - k : Nat) : Int) := by
  intro k
  induction k with
  | zero =>
    intro N s f hfind hlt hN hk
    simp [splitIter, selectFragsAvailable, hfind, hN]
  | succ k ih =>
    intro N s f hfind hlt hN hk
    have hfresh : v.fragOf ≠ s.nextFragId := Nat.ne_of_lt hlt
    have hstep := giveAFrag_split_step s userId v f ht hfind hfresh
    have hfind2 : (giveAFrag s userId v).2.frags.find?
        (fragMatch v.fragOf userId) =
        some { f with fragsAvailable := max (f.fragsAvailable - 1) 0 } := by
      rw [giveAFrag_split_frags s userId v f ht hfind hfresh,
          find?_decrement, List.find?_append, hfind]
      rfl
    have hlt2 : v.fragOf < (giveAFrag s userId v).2.nextFragId := by
      rw [hstep]
      exact Nat.lt_succ_of_lt hlt
    have hN2 : ({ f with fragsAvailable := max (f.fragsAvailable - 1) 0 }
        : Frag).fragsAvailable = ((N - 1 : Nat) : Int) := by
      show max (f.fragsAvailable - 1) 0 = ((N - 1 : Nat) : Int)
      rw [hN, max_def]
      split <;> omega
    have hk2 : k ≤ N - 1 := by omega
    have hrec := ih (N - 1) (giveAFrag s userId v).2 _ hfind2 hlt2 hN2 hk2
    show selectFragsAvailable
      (splitIter userId v k (giveAFrag s userId v).2).frags v.fragOf userId =
      some ((N - (k + 1) : Nat) : Int)
    rw [hrec]
    congr 1
    omega

/-- C2: giveAFrag without the transfer flag inserts a new live child frag
with counter 0 owned by the recipient and parent fragOf, decrements the
source counter by one floored at zero (leaving every other source column,
liveness included, unchanged), returns the re-read post-update counter with
the new frag id, and k sequential splits with k at most N take the counter
from N to N - k. -/
theorem giveAFrag_split_spec (s : Store) (userId : Nat) (v : GiveValues)
    (f : Frag)
    (ht : v.transfer = false)
    (hfind : s.frags.find? (fragMatch v.fragOf userId) = some f)
    (hlt : v.fragOf < s.nextFragId) :
    (giveAFrag s userId v).1 =
      some (max (f.fragsAvailable - 1) 0, s.nextFragId) ∧
    (giveAFrag s userId v).2.frags.find? (fragMatch v.fragOf userId) =
      some { f with fragsAvailable := max (f.fragsAvailable - 1) 0 } ∧
    (giveAFrag s userId v).2.frags.length = s.frags.length + 1 ∧
    (∃ g ∈ (giveAFrag s userId v).2.frags,
      g.fragId = s.nextFragId ∧ g.ownerId = v.ownerId ∧
      g.fragOf = some v.fragOf ∧ g.isAlive = true ∧ g.fragsAvailable = 0) ∧
    (∀ (k N : Nat), f.fragsAvailable = (N : Int) → k ≤ N →
      selectFragsAvailable (splitIter userId v k s).frags v.fragOf userId =
        some ((N - k : Nat) : Int)) := by
  have hfresh : v.fragOf ≠ s.nextFragId := Nat.ne_of_lt hlt
  have hstep := giveAFrag_split_step s userId v f ht hfind hfresh
  have hfrags := giveAFrag_split_frags s userId v f ht hfind hfresh
  refine ⟨?_, ?_, ?_, ?_, ?_⟩
  · rw [hstep]
  · rw [hfrags, find?_decrement, List.find?_append, hfind]
    rfl
  · rw [hfrags, decrementFragsAvailable, length_updateWhere]
    simp
  · refine ⟨newChildFrag s v, ?_, rfl, rfl, rfl, rfl, rfl⟩
    rw [hfrags, decrementFragsAvailable, updateWhere]
    refine List.mem_map.2 ⟨newChildFrag s v,
      List.mem_append_right _ (List.mem_singleton.2 rfl), ?_⟩
    simp [fragMatch_newChildFrag s v userId hfresh]
  · intro k N hN hk
    exact splitIter_counter userId v ht k N s f hfind hlt hN hk

/-!
Concrete fixtures used by the witnesses: one mother with one live root frag
whose counter is 2, owned by user 10.
-/

def sampleMother : Mother :=
  { motherId := 1, timestamp := 5, name := "zoa", type := "Softie"
    scientificName := none, flow := "Medium", light := "Medium"
    hardiness := "Normal", growthRate := "Normal", sourceType := none
    source := none, cost := none, size := none, rules := "dbtc"
    threadId := none, threadUrl := none }

def sampleFrag : Frag :=
  { fragId := 1, timestamp := 5, motherId := 1, ownerId := 10
    dateAcquired := 5, picture := none, notes := none, fragOf := none
    fragsAvailable := 2, isAlive := true, status := none }

def sampleStore : Store :=
  { mothers := [sampleMother], frags := [sampleFrag], journals := []
    fans := [], shares := [], typesTable := ["Softie"]
    rulesTable := ["dbtc"], nextMotherId := 2, nextFragId := 2
    nextJournalId := 1 }

def sampleTransfer : GiveValues :=
  { timestamp := 6, motherId := 1, ownerId := 20, dateAcquired := 6
    fragOf := 1, transfer := true, picture := none, notes := none }

def sampleSplit : GiveValues :=
  { timestamp := 6, motherId := 1, ownerId := 20, dateAcquired := 6
    fragOf := 1, transfer := false, picture := none, notes := none }

/-- Witness for C1 at the fixture: a transfer from a frag with counter 2
kills the source with counter 0 and status transferred and returns 0 with
the new frag id. -/
theorem giveAFrag_transfer_spec_witness :
    (giveAFrag sampleStore 10 sampleTransfer).1 = some (0, 2) ∧
    (giveAFrag sampleStore 10 sampleTransfer).2.frags.find?
      (fragMatch 1 10) =
      some { sampleFrag with isAlive := false, fragsAvailable := 0,
                             status := some "transferred" } :=
  have h := giveAFrag_transfer_spec sampleStore 10 sampleTransfer sampleFrag
    rfl (by decide) (by decide)
  ⟨h.1, h.2.1⟩

/-- Witness for C2 at the fixture: a split from a frag with counter 2 leaves
counter 1, and two sequential splits leave counter 0. -/
theorem giveAFrag_split_spec_witness :
    (giveAFrag sampleStore 10 sampleSplit).1 = some (1, 2) ∧
    (giveAFrag sampleStore 10 sampleSplit).2.frags.find? (fragMatch 1 10) =
      some { sampleFrag with fragsAvailable := 1 } ∧
    selectFragsAvailable (splitIter 10 sampleSplit 2 sampleStore).frags
      1 10 = some 0 :=
  have h := giveAFrag_split_spec sampleStore 10 sampleSplit sampleFrag
    rfl (by decide) (by decide)
  ⟨h.1, h.2.1, by
    have h2 := h.2.2.2.2 2 2 (by decide) (by decide)
    simpa using h2⟩

/-!
Claim C3 concerns the invariant fragsAvailable at least 0. INSERT_FRAG
stores the supplied counter without clamping, so an insertItem call with a
negative initial counter violates the invariant; the UPDATE statements all
clamp with MAX(..., 0).
-/

/-- All split counters in the store are non-negative. -/
def nonNegCounters (s : Store) : Prop :=
  ∀ f ∈ s.frags, 0 ≤ f.fragsAvailable

/-- An updateWhere pass whose rewrite keeps counters non-negative keeps the
whole table non-negative. -/
theorem nonNeg_updateWhere {fs : List Frag} {i o : Nat} {u : Frag → Frag}
    (hfs : ∀ f ∈ fs, 0 ≤ f.fragsAvailable)
    (hu : ∀ f, 0 ≤ f.fragsAvailable → 0 ≤ (u f).fragsAvailable) :
    ∀ f ∈ updateWhere fs i o u, 0 ≤ f.fragsAvailable := by
  intro f hf
  rw [updateWhere] at hf
  obtain ⟨x, hx, rfl⟩ := List.mem_map.1 hf
  cases hb : fragMatch i o x with
  | true => simpa [hb] using hu x (hfs x hx)
  | false => simpa [hb] using hfs x hx

/-- Appending the freshly inserted child (counter 0) keeps the table
non-negative. -/
theorem nonNeg_append_newChild {s : Store} (v : GiveValues)
    (hs : nonNegCounters s) :
    ∀ f ∈ s.frags ++ [newChildFrag s v], 0 ≤ f.fragsAvailable := by
  intro f hf
  rcases List.mem_append.1 hf with h | h
  · exact hs f h
  · rw [List.mem_singleton.1 h]
    exact le_refl 0

/-- ItemAttrs identical to the sample fixture except for a negative initial
split counter, as a malformed add-new-item body could supply. -/
def negCounterAttrs : ItemAttrs :=
  { timestamp := 0, name := "zoa", type := "Softie", scientificName := none
    flow := "Medium", light := "Medium", hardiness := "Normal"
    growthRate := "Normal", sourceType := none, source := none, cost := none
    size := none, rules := "dbtc", threadId := none, threadUrl := none
    ownerId := 10, dateAcquired := 0, picture := none, notes := none
    fragsAvailable := -1 }

/-- Counterexample to C3 as stated: insertItem stores a negative initial
fragsAvailable verbatim (INSERT_FRAG has no MAX clamp), so the root frag of
the created mother carries counter -1. -/
theorem insertItem_negative_counter :
    ∃ f ∈ (insertItem (emptyStore ["Softie"] ["dbtc"]) negCounterAttrs).2.frags,
      f.fragsAvailable < 0 := by decide

/-- C3 amended: after giveAFrag, markAsDead and updateFragsAvailable with
any inputs the counters stay non-negative, and after insertItem they stay
non-negative provided the supplied initial counter is non-negative (the
MAX(..., 0) clamps sit only in the UPDATE statements; INSERT_FRAG stores the
binding verbatim). -/
theorem ledger_nonNeg_preserved (s : Store) (hs : nonNegCounters s) :
    (∀ v : ItemAttrs, 0 ≤ v.fragsAvailable →
      nonNegCounters (insertItem s v).2) ∧
    (∀ (userId : Nat) (v : GiveValues),
      nonNegCounters (giveAFrag s userId v).2) ∧
    (∀ (ownerId fragId : Nat) (st : Option String),
      nonNegCounters (markAsDead s ownerId fragId st)) ∧
    (∀ (ownerId fragId : Nat) (value : Int),
      nonNegCounters (updateFragsAvailable s ownerId fragId value).2) := by
  refine ⟨?_, ?_, ?_, ?_⟩
  · intro v hv f hf
    simp only [insertItem] at hf
    rcases List.mem_append.1 hf with h | h
    · exact hs f h
    · rw [List.mem_singleton.1 h]
      exact hv
  · intro userId v
    cases ht : v.transfer with
    | true =>
      rw [giveAFrag_transfer_eq s userId v ht]
      intro f hf
      refine nonNeg_updateWhere (nonNeg_append_newChild v hs) ?_ f hf
      intro g _
      exact le_refl 0
    | false =>
      rcases hsel : selectFragsAvailable
          (decrementFragsAvailable (s.frags ++ [newChildFrag s v])
            v.fragOf userId) v.fragOf userId with _ | n
      · rw [giveAFrag_split_eq s userId v ht, hsel]
        exact hs
      · rw [giveAFrag_split_eq s userId v ht, hsel]
        intro f hf
        refine nonNeg_updateWhere (nonNeg_append_newChild v hs) ?_ f hf
        intro g _
        exact le_max_right _ _
  · intro ownerId fragId st f hf
    refine nonNeg_updateWhere hs ?_ f hf
    intro g _
    exact le_refl 0
  · intro ownerId fragId value
    rcases hsel : selectFragsAvailable
        (updateWhere s.frags fragId ownerId
          (fun f => { f with fragsAvailable := max value 0 }))
        fragId ownerId with _ | n
    · rw [updateFragsAvailable, hsel]
      exact hs
    · rw [updateFragsAvailable, hsel]
      intro f hf
      refine nonNeg_updateWhere hs ?_ f hf
      intro g _
      exact le_max_right _ _

/-- Witness for the amended C3 at the fixture store. -/
theorem ledger_nonNeg_preserved_witness :
    nonNegCounters (giveAFrag sampleStore 10 sampleSplit).2 ∧
    nonNegCounters (updateFragsAvailable sampleStore 10 1 (-5)).2 :=
  have h := ledger_nonNeg_preserved sampleStore
    (by unfold nonNegCounters; decide)
  ⟨h.2.1 10 sampleSplit, h.2.2.2 10 1 (-5)⟩

/-- C4: shareFrag is idempotent under content. The serialized frag+journal
state arrives as the json string, so byte-identical input means the same
json; the second call returns the id the first call returned and leaves the
shares table exactly as the first call left it, whatever fresh random id and
timestamp the second call would have used. -/
theorem shareFrag_idempotent (hash : String → String) (r1 r2 : String)
    (t1 t2 : Nat) (json : String) (s : Store) :
    shareFrag hash r2 t2 json (shareFrag hash r1 t1 json s).2 =
      ((shareFrag hash r1 t1 json s).1,
       (shareFrag hash r1 t1 json s).2) := by
  rcases hfind : s.shares.find? (fun r => r.hash == hash json) with _ | r
  · have h1 : shareFrag hash r1 t1 json s =
        (r1,
         { s with shares := s.shares ++
             [{ shareId := r1, hash := hash json, timestamp := t1,
                shareType := "frag", json }] }) := by
      simp [shareFrag, hfind]
    rw [h1]
    simp [shareFrag, List.find?_append, hfind]
  · have h1 : shareFrag hash r1 t1 json s = (r.shareId, s) := by
      simp [shareFrag, hfind]
    rw [h1]
    simp [shareFrag, hfind]

/-!
Import replayer (router.post import in src/server/dbtc-router.js). A
transaction entry of the parsed batch carries date, from, fromId, type, to
and toId. Dates are abstract instants, so a missing or empty date field is
none; the from and to display names keep JS string truthiness (the empty
string is falsy). The isGoodId check lives in the utility module outside
src, so it is a parameter here.
-/

structure Tx where
  date : Option Nat
  fromName : Option String
  fromId : Nat
  type : String
  toName : Option String
  toId : Nat
deriving Repr, DecidableEq

/-- JS truthiness of an optional string: absent and empty are falsy. -/
def truthyStr : Option String → Bool
  | some s => !(s == "")
  | none => false

/-- The per-entry validation of the import route: assert(date),
assert(from and isGoodId(fromId)), and for gave/trans
assert(to and isGoodId(toId)); a type other than gave, trans or rip hits
assert(false). -/
def validTx (isGoodId : Nat → Bool) (t : Tx) : Bool :=
  t.date.isSome &&
  (truthyStr t.fromName && isGoodId t.fromId) &&
  (if t.type = "gave" ∨ t.type = "trans" then
    truthyStr t.toName && isGoodId t.toId
  else t.type = "rip")

/-- JS Map get on the external-id to frag-id working map. -/
def mapGet (m : List (Nat × Nat)) (k : Nat) : Option Nat :=
  (m.find? (fun p => p.1 == k)).map (·.2)

/-- JS Map set: overwrite an existing key in place, else append. -/
def mapSet (m : List (Nat × Nat)) (k v : Nat) : List (Nat × Nat) :=
  if m.any (fun p => p.1 == k) then
    m.map (fun p => if p.1 == k then (k, v) else p)
  else m ++ [(k, v)]

/-- JS Map delete. -/
def mapDelete (m : List (Nat × Nat)) (k : Nat) : List (Nat × Nat) :=
  m.filter (fun p => !(p.1 == k))

/-- A key-preserving rewrite commutes with lookup by key. -/
theorem find?_map_keyPreserving (g : Nat × Nat → Nat × Nat)
    (hg : ∀ p, (g p).1 = p.1) (j : Nat) :
    ∀ m : List (Nat × Nat),
      (m.map g).find? (fun p => p.1 == j) =
        (m.find? (fun p => p.1 == j)).map g := by
  intro m
  induction m with
  | nil => rfl
  | cons p m ih =>
    cases hb : (p.1 == j) with
    | false =>
      have hb2 : ((g p).1 == j) = false := by rw [hg p]; exact hb
      simp [List.find?_cons, hb, hb2, ih]
    | true =>
      have hb2 : ((g p).1 == j) = true := by rw [hg p]; exact hb
      simp [List.find?_cons, hb, hb2]

/-- Setting any key keeps every present key present. -/
theorem isSome_mapGet_mapSet (m : List (Nat × Nat)) (k v j : Nat)
    (h : (mapGet m j).isSome) : (mapGet (mapSet m k v) j).isSome := by
  rw [mapGet] at h
  rcases hf : m.find? (fun p => p.1 == j) with _ | p
  · rw [hf] at h
    simp at h
  · rw [mapSet]
    cases hany : m.any (fun p => p.1 == k) with
    | false =>
      rw [if_neg (by simp)]
      rw [mapGet, List.find?_append, hf]
      simp
    | true =>
      rw [if_pos rfl]
      have hg : ∀ q : Nat × Nat,
          ((if q.1 == k then ((k, v) : Nat × Nat) else q)).1 = q.1 := by
        intro q
        cases hb : (q.1 == k) with
        | false => simp [hb]
        | true =>
          have hq : q.1 = k := by simpa using hb
          simp [hb, hq]
      rw [mapGet, find?_map_keyPreserving _ hg j m, hf]
      simp

/-- A deleted key reads back as absent. -/
theorem mapGet_mapDelete_self (m : List (Nat × Nat)) (k : Nat) :
    mapGet (mapDelete m k) k = none := by
  rw [mapGet, mapDelete]
  have : (m.filter (fun p => !(p.1 == k))).find? (fun p => p.1 == k) =
      none := by
    rw [List.find?_eq_none]
    intro p hp
    have := (List.mem_filter.1 hp).2
    simp at this
    simp [this]
  rw [this]
  rfl

/-- The values the import replay passes to giveAFrag for a gave or trans
entry: recipient toId, the entry date as acquisition date, the mapped
source frag as parent, and no transfer flag (the batch object carries
none). -/
def importGiveValues (now motherId : Nat) (t : Tx) (fromFragId : Nat) :
    GiveValues :=
  { timestamp := now, motherId, ownerId := t.toId
    dateAcquired := t.date.getD 0, fragOf := fromFragId
    transfer := false, picture := none, notes := none }

/-- One step of the import replay loop (the forEach switch). A missing
source mapping logs and skips the entry, leaving store and map unchanged; an
exception escaping giveAFrag would abort the whole request, modelled as
none. A type outside the three cases falls through the switch unchanged. -/
def replayTx (now motherId : Nat) (t : Tx) (s : Store)
    (m : List (Nat × Nat)) : Option (Store × List (Nat × Nat)) :=
  if t.type = "gave" then
    match mapGet m t.fromId with
    | none => some (s, m)
    | some fromFragId =>
      match giveAFrag s t.fromId (importGiveValues now motherId t fromFragId)
        with
      | (none, _) => none
      | (some (_, toFragId), s1) =>
        let m1 := mapSet m t.toId toFragId
        let s2 := (addJournal s1
          { fragId := toFragId, timestamp := t.date.getD 0
            entryType := some "acquired", picture := none
            notes := some ("Got it from " ++ t.fromName.getD "" ++
              " (imported)") }).2
        let s3 := (addJournal s2
          { fragId := fromFragId, timestamp := t.date.getD 0
            entryType := some "gave", picture := none
            notes := some ("Gave a frag to " ++ t.toName.getD "" ++
              " (imported)") }).2
        some (s3, m1)
  else if t.type = "trans" then
    match mapGet m t.fromId with
    | none => some (s, m)
    | some fromFragId =>
      match giveAFrag s t.fromId (importGiveValues now motherId t fromFragId)
        with
      | (none, _) => none
      | (some (_, toFragId), s1) =>
        let m1 := mapDelete (mapSet m t.toId toFragId) t.fromId
        let s2 := (addJournal s1
          { fragId := toFragId, timestamp := t.date.getD 0
            entryType := some "acquired", picture := none
            notes := some ("Transferred from " ++ t.fromName.getD "" ++
              " (imported)") }).2
        let s3 := (addJournal s2
          { fragId := fromFragId, timestamp := t.date.getD 0
            entryType := some "gave", picture := none
            notes := some ("Transferred to " ++ t.toName.getD "" ++
              " (imported)") }).2
        let s4 := markAsDead s3 t.fromId fromFragId (some "transferred")
        some (s4, m1)
  else if t.type = "rip" then
    match mapGet m t.fromId with
    | none => some (s, m)
    | some fromFragId =>
      let m1 := mapDelete m t.fromId
      let s1 := markAsDead s t.fromId fromFragId none
      let s2 := (addJournal s1
        { fragId := fromFragId, timestamp := t.date.getD 0
          entryType := some "rip", picture := none
          notes := some "RIP (imported)" }).2
      some (s2, m1)
  else some (s, m)

/-- The whole replay loop, strictly in supplied order. -/
def replayAll (now motherId : Nat) :
    List Tx → Store → List (Nat × Nat) →
      Option (Store × List (Nat × Nat))
  | [], s, m => some (s, m)
  | t :: rest, s, m =>
    match replayTx now motherId t s m with
    | none => none
    | some (s1, m1) => replayAll now motherId rest s1 m1

/-- The import route: validate every transaction of the batch up front and
reject the whole import before any write on failure; otherwise insert the
mother and root frag owned by the importing user (rules dbtc, counter 0),
add the acquired and imported journals, seed the working map with
userId mapped to the root frag, and replay the batch. -/
def importRoute (isGoodId : Nat → Bool) (now userId threadId : Nat)
    (threadUrl : Option String) (name ty : String) (dateAcquired : Nat)
    (picture : Option String) (txs : List Tx) (s : Store) :
    Option (Nat × Nat) × Store :=
  if txs.all (validTx isGoodId) then
    let r1 := insertItem s
      { timestamp := now, name, type := ty, scientificName := none
        flow := "Medium", light := "Medium", hardiness := "Normal"
        growthRate := "Normal", sourceType := none, source := none
        cost := some 0, size := none, rules := "dbtc"
        threadId := some threadId, threadUrl, ownerId := userId
        dateAcquired, picture, notes := none, fragsAvailable := 0 }
    let motherId := r1.1.1
    let fragId := r1.1.2
    let s1 := r1.2
    let s2 := (addJournal s1
      { fragId, timestamp := dateAcquired, entryType := some "acquired"
        picture := none, notes := some "Acquired it (imported)" }).2
    let s3 := (addJournal s2
      { fragId, timestamp := now, entryType := some "imported"
        picture := none, notes := some "Imported from the forum" }).2
    match replayAll now motherId txs s3 [(userId, fragId)] with
    | some (s4, _) => (some (motherId, fragId), s4)
    | none => (none, s)
  else (none, s)

/-- C5: a batch containing an entry that lacks a date, lacks a truthy from
name with a good fromId, has type gave or trans without a truthy to name and
good toId, or has a type outside gave/trans/rip makes the import route
return the import-validation error with the store untouched: no mother, frag
or journal row is created. -/
theorem importRoute_rejects_invalid (isGoodId : Nat → Bool)
    (now userId threadId : Nat) (threadUrl : Option String)
    (name ty : String) (dateAcquired : Nat) (picture : Option String)
    (txs : List Tx) (s : Store) (t : Tx) (ht : t ∈ txs)
    (hbad :
      t.date = none ∨
      (truthyStr t.fromName && isGoodId t.fromId) = false ∨
      ((t.type = "gave" ∨ t.type = "trans") ∧
        (truthyStr t.toName && isGoodId t.toId) = false) ∨
      (t.type ≠ "gave" ∧ t.type ≠ "trans" ∧ t.type ≠ "rip")) :
    importRoute isGoodId now userId threadId threadUrl name ty dateAcquired
      picture txs s = (none, s) := by
  have hv : validTx isGoodId t = false := by
    rcases hbad with h | h | ⟨hty, hC⟩ | ⟨h1, h2, h3⟩
    · simp [validTx, h]
    · simp [validTx, h]
    · rcases hty with hty | hty <;> simp [validTx, hty, hC]
    · rw [validTx, if_neg (by simp [h1, h2])]
      simp [h3]
  have hall : txs.all (validTx isGoodId) = false := by
    cases hall : txs.all (validTx isGoodId) with
    | false => rfl
    | true =>
      have := List.all_eq_true.1 hall t ht
      rw [hv] at this
      simp at this
  simp [importRoute, hall]

/-- A single transaction entry with no date. -/
def noDateTx : Tx :=
  { date := none, fromName := some "alice", fromId := 100, type := "gave"
    toName := some "bob", toId := 200 }

/-- Witness for C5: a batch whose only entry misses its date is rejected in
full and produces zero ledger writes. -/
theorem importRoute_rejects_invalid_witness :
    importRoute (fun i => decide (0 < i)) 9 100 77 none "zoa" "Softie" 8 none
      [noDateTx] (emptyStore ["Softie"] ["dbtc"]) =
      (none, emptyStore ["Softie"] ["dbtc"]) :=
  importRoute_rejects_invalid (fun i => decide (0 < i)) 9 100 77 none "zoa"
    "Softie" 8 none [noDateTx] (emptyStore ["Softie"] ["dbtc"]) noDateTx
    (List.mem_singleton.2 rfl) (Or.inl rfl)

/-- The gave branch of replayTx once the source mapping resolves. -/
theorem replayTx_gave_found (now motherId : Nat) (t : Tx) (s : Store)
    (m : List (Nat × Nat)) (fid : Nat)
    (hty : t.type = "gave") (hget : mapGet m t.fromId = some fid) :
    replayTx now motherId t s m =
      match giveAFrag s t.fromId (importGiveValues now motherId t fid) with
      | (none, _) => none
      | (some (_, toFragId), s1) =>
        some ((addJournal (addJournal s1
            { fragId := toFragId, timestamp := t.date.getD 0
              entryType := some "acquired", picture := none
              notes := some ("Got it from " ++ t.fromName.getD "" ++
                " (imported)") }).2
            { fragId := fid, timestamp := t.date.getD 0
              entryType := some "gave", picture := none
              notes := some ("Gave a frag to " ++ t.toName.getD "" ++
                " (imported)") }).2,
          mapSet m t.toId toFragId) := by
  simp [replayTx, hty, hget]

/-- The trans branch of replayTx once the source mapping resolves. -/
theorem replayTx_trans_found (now motherId : Nat) (t : Tx) (s : Store)
    (m : List (Nat × Nat)) (fid : Nat)
    (hty : t.type = "trans") (hget : mapGet m t.fromId = some fid) :
    replayTx now motherId t s m =
      match giveAFrag s t.fromId (importGiveValues now motherId t fid) with
      | (none, _) => none
      | (some (_, toFragId), s1) =>
        some (markAsDead (addJournal (addJournal s1
            { fragId := toFragId, timestamp := t.date.getD 0
              entryType := some "acquired", picture := none
              notes := some ("Transferred from " ++ t.fromName.getD "" ++
                " (imported)") }).2
            { fragId := fid, timestamp := t.date.getD 0
              entryType := some "gave", picture := none
              notes := some ("Transferred to " ++ t.toName.getD "" ++
                " (imported)") }).2 t.fromId fid (some "transferred"),
          mapDelete (mapSet m t.toId toFragId) t.fromId) := by
  have hne : t.type ≠ "gave" := by simp [hty]
  simp [replayTx, hty, hne, hget]

/-- The rip branch of replayTx once the source mapping resolves. -/
theorem replayTx_rip_found (now motherId : Nat) (t : Tx) (s : Store)
    (m : List (Nat × Nat)) (fid : Nat)
    (hty : t.type = "rip") (hget : mapGet m t.fromId = some fid) :
    replayTx now motherId t s m =
      some ((addJournal (markAsDead s t.fromId fid none)
          { fragId := fid, timestamp := t.date.getD 0
            entryType := some "rip", picture := none
            notes := some "RIP (imported)" }).2,
        mapDelete m t.fromId) := by
  have hne1 : t.type ≠ "gave" := by simp [hty]
  have hne2 : t.type ≠ "trans" := by simp [hty]
  simp [replayTx, hty, hne1, hne2, hget]

/-- An entry whose source id is absent from the working map is skipped:
store and map come back unchanged. -/
theorem replayTx_skip (now motherId : Nat) (t : Tx) (s : Store)
    (m : List (Nat × Nat))
    (hty : t.type = "gave" ∨ t.type = "trans" ∨ t.type = "rip")
    (hget : mapGet m t.fromId = none) :
    replayTx now motherId t s m = some (s, m) := by
  rcases hty with hty | hty | hty
  · simp [replayTx, hty, hget]
  · have hne : t.type ≠ "gave" := by simp [hty]
    simp [replayTx, hty, hne, hget]
  · have hne1 : t.type ≠ "gave" := by simp [hty]
    have hne2 : t.type ≠ "trans" := by simp [hty]
    simp [replayTx, hty, hne1, hne2, hget]

/-!
The C6 replay scenario: import with transactions [gave A to B, trans B to C,
rip C], importer A (user 100). B is user 200, C is user 300.
-/

def txGaveAB : Tx :=
  { date := some 10, fromName := some "alice", fromId := 100, type := "gave"
    toName := some "bob", toId := 200 }

def txTransBC : Tx :=
  { date := some 11, fromName := some "bob", fromId := 200, type := "trans"
    toName := some "carol", toId := 300 }

def txRipC : Tx :=
  { date := some 12, fromName := some "carol", fromId := 300, type := "rip"
    toName := none, toId := 0 }

def scenarioTxs : List Tx := [txGaveAB, txTransBC, txRipC]

/-- The full import route run on the scenario batch against a fresh store:
the root frag gets id 1, the frag B receives gets id 2, the frag C receives
gets id 3. -/
def importScenario : Option (Nat × Nat) × Store :=
  importRoute (fun i => decide (0 < i)) 9 100 77 none "zoa" "Softie" 8 none
    scenarioTxs (emptyStore ["Softie"] ["dbtc"])

/-- The store the import route builds before replaying: root item inserted
plus its acquired and imported journals. -/
def scenarioStore0 : Store :=
  (addJournal (addJournal (insertItem (emptyStore ["Softie"] ["dbtc"])
    { timestamp := 9, name := "zoa", type := "Softie", scientificName := none
      flow := "Medium", light := "Medium", hardiness := "Normal"
      growthRate := "Normal", sourceType := none, source := none
      cost := some 0, size := none, rules := "dbtc", threadId := some 77
      threadUrl := none, ownerId := 100, dateAcquired := 8, picture := none
      notes := none, fragsAvailable := 0 }).2
    { fragId := 1, timestamp := 8, entryType := some "acquired"
      picture := none, notes := some "Acquired it (imported)" }).2
    { fragId := 1, timestamp := 9, entryType := some "imported"
      picture := none, notes := some "Imported from the forum" }).2

/-- The replay phase of the scenario, with the working map exposed. -/
def scenarioReplay : Option (Store × List (Nat × Nat)) :=
  replayAll 9 1 scenarioTxs scenarioStore0 [(100, 1)]

/-- C6: replaying [gave A to B, trans B to C, rip C] from importer A ends
with the frag C received (id 3) dead with no successor, the root frag of A
(id 1) still alive, and the working map holding exactly A mapped to the
root: B was removed at the trans step and C at the rip step. In general a
gave entry keeps the giver mapped, a trans or rip entry removes the source
mapping, and an entry whose source id is not in the map is skipped while the
rest of the batch continues. -/
theorem import_replay_spec :
    importScenario.1 = some (1, 1) ∧
    (importScenario.2.frags.find? (fun f => f.fragId == 3)).map
      (fun f => (f.isAlive, f.status)) = some (false, none) ∧
    importScenario.2.frags.filter (fun f => f.fragOf == some 3) = [] ∧
    (importScenario.2.frags.find? (fun f => f.fragId == 1)).map
      (fun f => f.isAlive) = some true ∧
    scenarioReplay.map Prod.fst = some importScenario.2 ∧
    scenarioReplay.map Prod.snd = some [(100, 1)] ∧
    (∀ (now motherId : Nat) (t : Tx) (s : Store) (m : List (Nat × Nat))
      (fid : Nat) (s' : Store) (m' : List (Nat × Nat)),
      t.type = "gave" → mapGet m t.fromId = some fid →
      replayTx now motherId t s m = some (s', m') →
      (mapGet m' t.fromId).isSome) ∧
    (∀ (now motherId : Nat) (t : Tx) (s : Store) (m : List (Nat × Nat))
      (fid : Nat) (s' : Store) (m' : List (Nat × Nat)),
      t.type = "trans" → mapGet m t.fromId = some fid →
      replayTx now motherId t s m = some (s', m') →
      mapGet m' t.fromId = none) ∧
    (∀ (now motherId : Nat) (t : Tx) (s : Store) (m : List (Nat × Nat))
      (fid : Nat) (s' : Store) (m' : List (Nat × Nat)),
      t.type = "rip" → mapGet m t.fromId = some fid →
      replayTx now motherId t s m = some (s', m') →
      mapGet m' t.fromId = none) ∧
    (∀ (now motherId : Nat) (t : Tx) (s : Store) (m : List (Nat × Nat))
      (rest : List Tx),
      (t.type = "gave" ∨ t.type = "trans" ∨ t.type = "rip") →
      mapGet m t.fromId = none →
      replayAll now motherId (t :: rest) s m =
        replayAll now motherId rest s m) := by
  refine ⟨by decide, by decide, by decide, by decide, by decide, by decide,
    ?_, ?_, ?_, ?_⟩
  · intro now motherId t s m fid s' m' hty hget hrun
    rw [replayTx_gave_found now motherId t s m fid hty hget] at hrun
    rcases hg : giveAFrag s t.fromId (importGiveValues now motherId t fid)
      with ⟨ro, s1⟩
    rw [hg] at hrun
    rcases ro with _ | ⟨n, tf⟩
    · simp at hrun
    · simp only [Option.some.injEq, Prod.mk.injEq] at hrun
      obtain ⟨h1, h2⟩ := hrun
      rw [← h2]
      exact isSome_mapGet_mapSet m t.toId tf t.fromId (by simp [hget])
  · intro now motherId t s m fid s' m' hty hget hrun
    rw [replayTx_trans_found now motherId t s m fid hty hget] at hrun
    rcases hg : giveAFrag s t.fromId (importGiveValues now motherId t fid)
      with ⟨ro, s1⟩
    rw [hg] at hrun
    rcases ro with _ | ⟨n, tf⟩
    · simp at hrun
    · simp only [Option.some.injEq, Prod.mk.injEq] at hrun
      obtain ⟨h1, h2⟩ := hrun
      rw [← h2]
      exact mapGet_mapDelete_self (mapSet m t.toId tf) t.fromId
  · intro now motherId t s m fid s' m' hty hget hrun
    rw [replayTx_rip_found now motherId t s m fid hty hget] at hrun
    simp only [Option.some.injEq, Prod.mk.injEq] at hrun
    obtain ⟨h1, h2⟩ := hrun
    rw [← h2]
    exact mapGet_mapDelete_self m t.fromId
  · intro now motherId t s m rest hty hget
    have h := replayTx_skip now motherId t s m hty hget
    simp only [replayAll, h]

/-- Witness for C6: the gave-keeps-giver conclusion at the first scenario
step, and the skip conclusion on a batch whose source id is unmapped. -/
theorem import_replay_spec_witness :
    (mapGet ((replayTx 9 1 txGaveAB scenarioStore0 [(100, 1)]).getD
      (emptyStore [] [], [])).2 100).isSome ∧
    replayAll 0 1 [txRipC] (emptyStore [] []) [] =
      some (emptyStore [] [], []) := by
  have h := import_replay_spec
  constructor
  · exact h.2.2.2.2.2.2.1 9 1 txGaveAB scenarioStore0 [(100, 1)] 1
      ((replayTx 9 1 txGaveAB scenarioStore0 [(100, 1)]).getD
        (emptyStore [] [], [])).1
      ((replayTx 9 1 txGaveAB scenarioStore0 [(100, 1)]).getD
        (emptyStore [] [], [])).2
      rfl (by decide) (by decide)
  · have hs := h.2.2.2.2.2.2.2.2.2 0 1 txRipC (emptyStore [] []) [] []
      (Or.inr (Or.inr rfl)) (by decide)
    rw [hs]
    rfl

/-!
Collection paginator (SELECT_COLLECTION_PAGED).
-/

/-- Modelled from the spec: the motherFrags view that SELECT_COLLECTION_PAGED
reads is defined in the dbtc schema file, which is not under src. Per the
spec it exposes one mother-level row per lineage (the mother joined with its
root frag, whose owner appears as mf.ownerId); the pagination claim touches
only the columns used by the WHERE and ORDER BY clauses. -/
structure MotherFrag where
  motherId : Nat
  timestamp : Nat
  name : String
  type : String
  ownerId : Nat
  rules : String
deriving Repr, DecidableEq

def ITEMS_PER_PAGE : Nat := 12

/-- NULL_FILTERS overridden by the query string: unset means no
constraint. -/
structure CollectionFilters where
  type : Option String
  ownerId : Option Nat
  name : Option String
deriving Repr, DecidableEq

/-- The WHERE clause shared by the outer query and the keyset subquery:
mf.rules = $rules AND ($type IS NULL OR mf.type = $type) AND
($ownerId IS NULL OR mf.ownerId = $ownerId) AND
($name IS NULL OR mf.name LIKE $name). The SQL LIKE operator
(case-insensitive partial match) arrives as the like parameter. -/
def mfWhere (like : String → String → Bool) (rules : String)
    (fl : CollectionFilters) (r : MotherFrag) : Bool :=
  r.rules == rules &&
  (match fl.type with | none => true | some t => r.type == t) &&
  (match fl.ownerId with | none => true | some o => r.ownerId == o) &&
  (match fl.name with | none => true | some n => like r.name n)

/-- ORDER BY mf.timestamp DESC as a boolean total preorder. -/
def byTimestampDesc (a b : MotherFrag) : Bool :=
  decide (b.timestamp ≤ a.timestamp)

/-- selectCollectionPaged: the outer query keeps the rows passing the WHERE
clause whose motherId is NOT IN the keyset subquery (the same WHERE and the
same ORDER BY, limited to $itemsPerPage * ($page - 1) rows), ordered by
timestamp descending, limited to $itemsPerPage. The GROUP BY 1 collapses the
frags/fans join back to one row per mother, and the aggregate columns
(ownsIt, otherFragsAvailable, hasOne, childCount, isFan, fanCount — the only
consumers of $userId) enrich each row without affecting which mothers
appear, so the model returns the bare rows; SQL leaves the relative order of
equal timestamps unpinned, and the model pins it by sorting the matching
rows once with a stable mergeSort used by subquery and outer query alike,
exactly as one SQLite plan evaluates both. -/
def selectCollectionPaged (like : String → String → Bool) (userId : Nat)
    (rules : String) (page : Nat) (fl : CollectionFilters)
    (rows : List MotherFrag) : List MotherFrag :=
  let matching := (rows.filter (mfWhere like rules fl)).mergeSort
    byTimestampDesc
  let skip := (matching.take (ITEMS_PER_PAGE * (page - 1))).map (·.motherId)
  (matching.filter (fun r => !(skip.contains r.motherId))).take
    ITEMS_PER_PAGE

/-- Excluding the ids of the first k rows from a list with distinct ids
drops exactly those k rows. -/
theorem filter_not_mem_take :
    ∀ (k : Nat) (l : List MotherFrag), (l.map (·.motherId)).Nodup →
      l.filter (fun r => !(((l.take k).map (·.motherId)).contains
        r.motherId)) = l.drop k := by
  intro k
  induction k with
  | zero =>
    intro l _
    simp
  | succ k ih =>
    intro l hnd
    cases l with
    | nil => rfl
    | cons x xs =>
      rw [List.map_cons] at hnd
      have hx : x.motherId ∉ xs.map (·.motherId) :=
        (List.nodup_cons.1 hnd).1
      have hxs : (xs.map (·.motherId)).Nodup := (List.nodup_cons.1 hnd).2
      have hhead : (((x :: xs).take (k + 1)).map (·.motherId)).contains
          x.motherId = true := by
        simp [List.take_succ_cons, List.contains_cons]
      have hcongr : ∀ r ∈ xs,
          (!((((x :: xs).take (k + 1)).map (·.motherId)).contains
            r.motherId)) =
          (!(((xs.take k).map (·.motherId)).contains r.motherId)) := by
        intro r hr
        have hne : (r.motherId == x.motherId) = false := by
          simp only [beq_eq_false_iff_ne]
          intro he
          exact hx (he ▸ List.mem_map_of_mem (·.motherId) hr)
        simp [List.take_succ_cons, List.contains_cons, hne]
        intro _
        simpa using hne
      rw [List.filter_cons, hhead]
      rw [if_neg (by decide)]
      rw [List.filter_congr hcongr, ih xs hxs]
      rfl

/-- Concatenating take-n chunks at offsets 0, n, 2n, ... rebuilds the
list once the chunks cover its length. -/
theorem flatten_chunks {α : Type} (n : Nat) :
    ∀ (P : Nat) (l : List α), l.length ≤ n * P →
      ((List.range P).map (fun i => (l.drop (n * i)).take n)).flatten =
        l := by
  intro P
  induction P with
  | zero =>
    intro l hl
    rw [Nat.mul_zero] at hl
    have hl0 : l = [] := List.length_eq_zero.1 (Nat.le_zero.1 hl)
    simp [hl0]
  | succ P ih =>
    intro l hl
    rw [List.range_succ_eq_map, List.map_cons, List.map_map,
      List.flatten_cons]
    have h0 : (l.drop (n * 0)).take n = l.take n := by simp
    have hmap : (List.range P).map
        ((fun i => (l.drop (n * i)).take n) ∘ Nat.succ) =
        (List.range P).map
          (fun i => (((l.drop n).drop (n * i))).take n) := by
      apply List.map_congr_left
      intro i _
      show (l.drop (n * (i + 1))).take n = ((l.drop n).drop (n * i)).take n
      rw [List.drop_drop]
      congr 2
      ring
    have hlen : (l.drop n).length ≤ n * P := by
      rw [List.length_drop]
      rw [Nat.mul_succ] at hl
      exact Nat.sub_le_iff_le_add.2 hl
    rw [h0, hmap, ih (l.drop n) hlen]
    exact List.take_append_drop n l

/-- Page page of the listing, with the page number made explicit as one plus
the zero-based index. -/
theorem selectCollectionPaged_eq (like : String → String → Bool)
    (userId : Nat) (rules : String) (fl : CollectionFilters)
    (rows : List MotherFrag) (i : Nat)
    (hnd : (rows.map (·.motherId)).Nodup) :
    selectCollectionPaged like userId rules (i + 1) fl rows =
      (((rows.filter (mfWhere like rules fl)).mergeSort
        byTimestampDesc).drop (ITEMS_PER_PAGE * i)).take ITEMS_PER_PAGE := by
  have hsub : ((rows.filter (mfWhere like rules fl)).map
      (·.motherId)).Nodup :=
    List.Nodup.sublist
      (List.Sublist.map (·.motherId) (List.filter_sublist rows)) hnd
  have hsnd : (((rows.filter (mfWhere like rules fl)).mergeSort
      byTimestampDesc).map (·.motherId)).Nodup :=
    ((List.mergeSort_perm (rows.filter (mfWhere like rules fl))
      byTimestampDesc).map (fun r : MotherFrag => r.motherId)).nodup_iff.2
      hsub
  simp only [selectCollectionPaged, Nat.add_sub_cancel]
  rw [filter_not_mem_take (ITEMS_PER_PAGE * i) _ hsnd]

/-- The concatenation of pages 1 through P. -/
def collectionPages (like : String → String → Bool) (userId : Nat)
    (rules : String) (fl : CollectionFilters) (rows : List MotherFrag)
    (P : Nat) : List MotherFrag :=
  ((List.range P).map
    (fun i => selectCollectionPaged like userId rules (i + 1) fl rows)
  ).flatten

/-- C7: for a fixed user, rules value and filter set over mother rows with
distinct ids, concatenating pages 1..P of selectCollectionPaged (P large
enough to cover the matching rows) yields exactly the matching mothers —
each exactly once, with no duplicate ids — in descending creation-time
order, and every page holds at most ITEMS_PER_PAGE = 12 rows. -/
theorem selectCollectionPaged_complete (like : String → String → Bool)
    (userId : Nat) (rules : String) (fl : CollectionFilters)
    (rows : List MotherFrag) (P : Nat)
    (hnd : (rows.map (·.motherId)).Nodup)
    (hP : (rows.filter (mfWhere like rules fl)).length ≤
      ITEMS_PER_PAGE * P) :
    (collectionPages like userId rules fl rows P).Perm
      (rows.filter (mfWhere like rules fl)) ∧
    ((collectionPages like userId rules fl rows P).map (·.motherId)).Nodup ∧
    (collectionPages like userId rules fl rows P).Sorted
      (fun a b => b.timestamp ≤ a.timestamp) ∧
    ∀ page, (selectCollectionPaged like userId rules page fl rows).length ≤
      ITEMS_PER_PAGE := by
  have hsub : ((rows.filter (mfWhere like rules fl)).map
      (·.motherId)).Nodup :=
    List.Nodup.sublist
      (List.Sublist.map (·.motherId) (List.filter_sublist rows)) hnd
  have hperm : ((rows.filter (mfWhere like rules fl)).mergeSort
      byTimestampDesc).Perm (rows.filter (mfWhere like rules fl)) :=
    List.mergeSort_perm _ _
  have hflat : collectionPages like userId rules fl rows P =
      (rows.filter (mfWhere like rules fl)).mergeSort byTimestampDesc := by
    have hpages : (List.range P).map
        (fun i => selectCollectionPaged like userId rules (i + 1) fl rows) =
        (List.range P).map (fun i =>
          (((rows.filter (mfWhere like rules fl)).mergeSort
            byTimestampDesc).drop (ITEMS_PER_PAGE * i)).take
            ITEMS_PER_PAGE) :=
      List.map_congr_left (fun i _ =>
        selectCollectionPaged_eq like userId rules fl rows i hnd)
    rw [collectionPages, hpages]
    exact flatten_chunks ITEMS_PER_PAGE P _
      (by rw [hperm.length_eq]; exact hP)
  refine ⟨?_, ?_, ?_, ?_⟩
  · rw [hflat]
    exact hperm
  · rw [hflat]
    exact (hperm.map (·.motherId)).nodup_iff.2 hsub
  · rw [hflat]
    have htrans : ∀ a b c : MotherFrag, byTimestampDesc a b = true →
        byTimestampDesc b c = true → byTimestampDesc a c = true := by
      intro a b c hab hbc
      simp only [byTimestampDesc, decide_eq_true_eq] at *
      exact le_trans hbc hab
    have htotal : ∀ a b : MotherFrag,
        (byTimestampDesc a b || byTimestampDesc b a) = true := by
      intro a b
      simp only [byTimestampDesc, Bool.or_eq_true, decide_eq_true_eq]
      exact Nat.le_total b.timestamp a.timestamp
    exact (List.sorted_mergeSort htrans htotal _).imp
      (fun h => by simpa [byTimestampDesc] using h)
  · intro page
    simp only [selectCollectionPaged]
    exact List.length_take_le _ _

/-- Two sample mother-level rows with distinct ids. -/
def mfA : MotherFrag :=
  { motherId := 1, timestamp := 5, name := "alpha", type := "SPS"
    ownerId := 10, rules := "dbtc" }

def mfB : MotherFrag :=
  { motherId := 2, timestamp := 7, name := "beta", type := "LPS"
    ownerId := 11, rules := "dbtc" }

/-- Witness for C7 at a two-row view with no filters and a single page. -/
theorem selectCollectionPaged_complete_witness :
    (collectionPages (fun _ _ => true) 10 "dbtc"
      { type := none, ownerId := none, name := none } [mfA, mfB] 1).Perm
      ([mfA, mfB].filter (mfWhere (fun _ _ => true) "dbtc"
        { type := none, ownerId := none, name := none })) ∧
    (collectionPages (fun _ _ => true) 10 "dbtc"
      { type := none, ownerId := none, name := none } [mfA, mfB] 1).Sorted
      (fun a b => b.timestamp ≤ a.timestamp) :=
  have h := selectCollectionPaged_complete (fun _ _ => true) 10 "dbtc"
    { type := none, ownerId := none, name := none } [mfA, mfB] 1
    (by decide) (by decide)
  ⟨h.1, h.2.2.1⟩

/-!
Lineage reconstruction (SELECT_FRAGS_FOR_MOTHER and the tree route). The
tree-shape invariant is maintained by the ledger operations when giveAFrag
is called the way the give-a-frag route and the import replayer call it:
with fragOf an existing frag and motherId the motherId of that frag (the
caller pre-validation of spec section 4.1).
-/

/-- ORDER BY fragOf, dateAcquired (SQLite sorts NULL first ascending). -/
def byFragOfDate (a b : Frag) : Bool :=
  match a.fragOf, b.fragOf with
  | none, none => decide (a.dateAcquired ≤ b.dateAcquired)
  | none, some _ => true
  | some _, none => false
  | some x, some y =>
    if x = y then decide (a.dateAcquired ≤ b.dateAcquired)
    else decide (x < y)

/-- SELECT_FRAGS_FOR_MOTHER: the frag rows of one mother ordered by
(fragOf, dateAcquired); the join with mothers carries the mother columns
along for the privacy checks without changing the frag rows. -/
def selectFragsForMother (s : Store) (motherId : Nat) : List Frag :=
  (s.frags.filter (fun f => f.motherId == motherId)).mergeSort byFragOfDate

/-- The rows the tree route keeps as roots (falsy fragOf). -/
def rootsOf (rows : List Frag) : List Frag :=
  rows.filter (fun f => f.fragOf == none)

/-- The children list the tree route builds for the row with the given id:
every row whose fragOf equals that id, in row order. -/
def childrenOf (rows : List Frag) (id : Nat) : List Frag :=
  rows.filter (fun f => f.fragOf == some id)

/-- The frag-mutating ledger operations. -/
inductive LedgerOp where
  | insert (v : ItemAttrs)
  | give (userId : Nat) (v : GiveValues)
  | kill (ownerId fragId : Nat) (status : Option String)
  | setAvailable (ownerId fragId : Nat) (value : Int)

def applyOp (s : Store) : LedgerOp → Store
  | .insert v => (insertItem s v).2
  | .give userId v => (giveAFrag s userId v).2
  | .kill ownerId fragId status => markAsDead s ownerId fragId status
  | .setAvailable ownerId fragId value =>
    (updateFragsAvailable s ownerId fragId value).2

/-- Caller pre-validation, per the spec: giveAFrag is reached only with an
existing source frag, and the motherId sent along is that of the source. -/
def WfOp (s : Store) : LedgerOp → Prop
  | .give _ v => ∃ f ∈ s.frags, f.fragId = v.fragOf ∧ f.motherId = v.motherId
  | _ => True

/-- Stores reachable from a fresh database through pre-validated ledger
operations. -/
inductive ReachableWf : Store → Prop where
  | init (types rules : List String) : ReachableWf (emptyStore types rules)
  | step {s : Store} (op : LedgerOp) : ReachableWf s → WfOp s op →
      ReachableWf (applyOp s op)

/-- The lineage-tree invariant: every parent pointer resolves to a row of
the same mother, every mother that has rows has exactly one root row, and
all ids sit below the autoincrement counters. -/
structure TreeInv (s : Store) : Prop where
  parentOk : ∀ f ∈ s.frags, ∀ p, f.fragOf = some p →
    ∃ g ∈ s.frags, g.fragId = p ∧ g.motherId = f.motherId
  oneRoot : ∀ f ∈ s.frags,
    (s.frags.filter (fun g => g.fragOf == none &&
      g.motherId == f.motherId)).length = 1
  idsFresh : ∀ f ∈ s.frags,
    f.fragId < s.nextFragId ∧ f.motherId < s.nextMotherId

/-- Mapping with a function that never flips the filter predicate keeps the
filtered length. -/
theorem length_filter_map {p : Frag → Bool} (e : Frag → Frag)
    (hp : ∀ f, p (e f) = p f) :
    ∀ l : List Frag, ((l.map e).filter p).length = (l.filter p).length := by
  intro l
  induction l with
  | nil => rfl
  | cons x xs ih =>
    rw [List.map_cons, List.filter_cons, List.filter_cons, hp x]
    cases hx : p x <;> simp [hx, ih]

/-- Any UPDATE that rewrites neither ids, mother references nor parent
pointers preserves the tree invariant. -/
theorem treeInv_updateWhere (s : Store) (inv : TreeInv s) (i o : Nat)
    (u : Frag → Frag)
    (hu : ∀ f, (u f).fragId = f.fragId ∧ (u f).motherId = f.motherId ∧
      (u f).fragOf = f.fragOf) :
    TreeInv { s with frags := updateWhere s.frags i o u } := by
  have hef : ∀ f : Frag,
      (if fragMatch i o f then u f else f).fragId = f.fragId := by
    intro f
    cases hb : fragMatch i o f <;> simp [hb, (hu f).1]
  have hem : ∀ f : Frag,
      (if fragMatch i o f then u f else f).motherId = f.motherId := by
    intro f
    cases hb : fragMatch i o f <;> simp [hb, (hu f).2.1]
  have heo : ∀ f : Frag,
      (if fragMatch i o f then u f else f).fragOf = f.fragOf := by
    intro f
    cases hb : fragMatch i o f <;> simp [hb, (hu f).2.2]
  refine ⟨?_, ?_, ?_⟩
  · intro f' hf' p hp
    have hf2 : f' ∈ updateWhere s.frags i o u := hf'
    rw [updateWhere] at hf2
    obtain ⟨x, hx, rfl⟩ := List.mem_map.1 hf2
    have hxo : x.fragOf = some p := by
      rw [← heo x]
      exact hp
    obtain ⟨g, hg, hg1, hg2⟩ := inv.parentOk x hx p hxo
    refine ⟨if fragMatch i o g then u g else g, ?_, ?_, ?_⟩
    · show _ ∈ updateWhere s.frags i o u
      rw [updateWhere]
      exact List.mem_map_of_mem _ hg
    · rw [hef g]
      exact hg1
    · rw [hem g, hem x]
      exact hg2
  · intro f' hf'
    have hf2 : f' ∈ updateWhere s.frags i o u := hf'
    rw [updateWhere] at hf2
    obtain ⟨x, hx, rfl⟩ := List.mem_map.1 hf2
    show ((updateWhere s.frags i o u).filter
      (fun g => g.fragOf == none &&
        g.motherId == (if fragMatch i o x then u x else x).motherId)).length
      = 1
    rw [updateWhere]
    rw [length_filter_map (fun f => if fragMatch i o f then u f else f)
      (fun f => by rw [heo f, hem f]) s.frags]
    simp only [hem x]
    exact inv.oneRoot x hx
  · intro f' hf'
    have hf2 : f' ∈ updateWhere s.frags i o u := hf'
    rw [updateWhere] at hf2
    obtain ⟨x, hx, rfl⟩ := List.mem_map.1 hf2
    show (if fragMatch i o x then u x else x).fragId < s.nextFragId ∧
      (if fragMatch i o x then u x else x).motherId < s.nextMotherId
    rw [hef x, hem x]
    exact inv.idsFresh x hx

/-- insertItem preserves the tree invariant: the new root frag belongs to
the freshly minted mother, which no existing row references. -/
theorem treeInv_insertItem (s : Store) (inv : TreeInv s) (v : ItemAttrs) :
    TreeInv (insertItem s v).2 := by
  refine ⟨?_, ?_, ?_⟩
  · intro f hf p hp
    have hf2 : f ∈ s.frags ++ [newRootFrag s v] := hf
    rcases List.mem_append.1 hf2 with h | h
    · obtain ⟨g, hg, hg1, hg2⟩ := inv.parentOk f h p hp
      exact ⟨g, List.mem_append_left _ hg, hg1, hg2⟩
    · rw [List.mem_singleton.1 h] at hp
      simp [newRootFrag] at hp
  · intro f hf
    have hf2 : f ∈ s.frags ++ [newRootFrag s v] := hf
    show ((s.frags ++ [newRootFrag s v]).filter
      (fun g => g.fragOf == none && g.motherId == f.motherId)).length = 1
    rw [List.filter_append]
    rcases List.mem_append.1 hf2 with h | h
    · have hlt : f.motherId < s.nextMotherId := (inv.idsFresh f h).2
      have hnew : ((newRootFrag s v).fragOf == none &&
          (newRootFrag s v).motherId == f.motherId) = false := by
        have : (s.nextMotherId == f.motherId) = false := by
          simp only [beq_eq_false_iff_ne]
          omega
        simp [newRootFrag, this]
      rw [List.length_append]
      have h2 : ([newRootFrag s v].filter
          (fun g => g.fragOf == none && g.motherId == f.motherId)) = [] := by
        simp [List.filter_cons, hnew]
      rw [h2]
      simpa using inv.oneRoot f h
    · rw [List.mem_singleton.1 h]
      have hold : (s.frags.filter
          (fun g => g.fragOf == none &&
            g.motherId == (newRootFrag s v).motherId)) = [] := by
        apply List.filter_eq_nil_iff.2
        intro g hg
        have hlt : g.motherId < s.nextMotherId := (inv.idsFresh g hg).2
        have : (g.motherId == s.nextMotherId) = false := by
          simp only [beq_eq_false_iff_ne]
          omega
        simp [newRootFrag, this]
      rw [hold]
      simp [newRootFrag]
  · intro f hf
    have hf2 : f ∈ s.frags ++ [newRootFrag s v] := hf
    show f.fragId < s.nextFragId + 1 ∧ f.motherId < s.nextMotherId + 1
    rcases List.mem_append.1 hf2 with h | h
    · obtain ⟨h1, h2⟩ := inv.idsFresh f h
      omega
    · rw [List.mem_singleton.1 h]
      show s.nextFragId < s.nextFragId + 1 ∧
        s.nextMotherId < s.nextMotherId + 1
      omega

/-- Inserting the child row of a pre-validated giveAFrag call preserves the
tree invariant: the child points at the existing source frag of the same
mother and is itself no root. -/
theorem treeInv_appendChild (s : Store) (inv : TreeInv s) (v : GiveValues)
    (hwf : ∃ f ∈ s.frags, f.fragId = v.fragOf ∧ f.motherId = v.motherId) :
    TreeInv { s with frags := s.frags ++ [newChildFrag s v],
                     nextFragId := s.nextFragId + 1 } := by
  obtain ⟨f0, hf0, hf01, hf02⟩ := hwf
  refine ⟨?_, ?_, ?_⟩
  · intro f hf p hp
    have hf2 : f ∈ s.frags ++ [newChildFrag s v] := hf
    rcases List.mem_append.1 hf2 with h | h
    · obtain ⟨g, hg, hg1, hg2⟩ := inv.parentOk f h p hp
      exact ⟨g, List.mem_append_left _ hg, hg1, hg2⟩
    · rw [List.mem_singleton.1 h] at hp ⊢
      have hp2 : v.fragOf = p := by
        simpa [newChildFrag] using hp
      refine ⟨f0, List.mem_append_left _ hf0, ?_, ?_⟩
      · rw [hf01, hp2]
      · show f0.motherId = (newChildFrag s v).motherId
        rw [hf02]
        rfl
  · intro f hf
    have hf2 : f ∈ s.frags ++ [newChildFrag s v] := hf
    show ((s.frags ++ [newChildFrag s v]).filter
      (fun g => g.fragOf == none && g.motherId == f.motherId)).length = 1
    rw [List.filter_append]
    have hnew : ∀ m : Nat, ((newChildFrag s v).fragOf == none &&
        (newChildFrag s v).motherId == m) = false := by
      intro m
      simp [newChildFrag]
    rcases List.mem_append.1 hf2 with h | h
    · have h2 : ([newChildFrag s v].filter
          (fun g => g.fragOf == none && g.motherId == f.motherId)) = [] := by
        simp [List.filter_cons, hnew f.motherId]
      rw [h2]
      simpa using inv.oneRoot f h
    · rw [List.mem_singleton.1 h]
      have h2 : ([newChildFrag s v].filter
          (fun g => g.fragOf == none &&
            g.motherId == (newChildFrag s v).motherId)) = [] := by
        simp [List.filter_cons, newChildFrag]
      rw [h2]
      have hmeq : (newChildFrag s v).motherId = f0.motherId := by
        rw [hf02]
        rfl
      rw [hmeq]
      simpa using inv.oneRoot f0 hf0
  · intro f hf
    have hf2 : f ∈ s.frags ++ [newChildFrag s v] := hf
    show f.fragId < s.nextFragId + 1 ∧ f.motherId < s.nextMotherId
    rcases List.mem_append.1 hf2 with h | h
    · obtain ⟨h1, h2⟩ := inv.idsFresh f h
      omega
    · rw [List.mem_singleton.1 h]
      refine ⟨Nat.lt_succ_self _, ?_⟩
      show v.motherId < s.nextMotherId
      rw [← hf02]
      exact (inv.idsFresh f0 hf0).2

/-- giveAFrag preserves the tree invariant under caller pre-validation. -/
theorem treeInv_giveAFrag (s : Store) (inv : TreeInv s) (userId : Nat)
    (v : GiveValues)
    (hwf : ∃ f ∈ s.frags, f.fragId = v.fragOf ∧ f.motherId = v.motherId) :
    TreeInv (giveAFrag s userId v).2 := by
  have hmid := treeInv_appendChild s inv v hwf
  cases ht : v.transfer with
  | true =>
    rw [giveAFrag_transfer_eq s userId v ht]
    exact treeInv_updateWhere _ hmid v.fragOf userId _
      (fun f => ⟨rfl, rfl, rfl⟩)
  | false =>
    rcases hsel : selectFragsAvailable
        (decrementFragsAvailable (s.frags ++ [newChildFrag s v])
          v.fragOf userId) v.fragOf userId with _ | n
    · rw [giveAFrag_split_eq s userId v ht, hsel]
      exact inv
    · rw [giveAFrag_split_eq s userId v ht, hsel]
      exact treeInv_updateWhere _ hmid v.fragOf userId _
        (fun f => ⟨rfl, rfl, rfl⟩)

/-- Every pre-validated ledger operation preserves the tree invariant. -/
theorem treeInv_applyOp (s : Store) (op : LedgerOp) (inv : TreeInv s)
    (hwf : WfOp s op) : TreeInv (applyOp s op) := by
  cases op with
  | insert v => exact treeInv_insertItem s inv v
  | give userId v => exact treeInv_giveAFrag s inv userId v hwf
  | kill ownerId fragId status =>
    exact treeInv_updateWhere s inv fragId ownerId _
      (fun f => ⟨rfl, rfl, rfl⟩)
  | setAvailable ownerId fragId value =>
    rcases hsel : selectFragsAvailable
        (updateWhere s.frags fragId ownerId
          (fun f => { f with fragsAvailable := max value 0 }))
        fragId ownerId with _ | n
    · show TreeInv (updateFragsAvailable s ownerId fragId value).2
      rw [updateFragsAvailable, hsel]
      exact inv
    · show TreeInv (updateFragsAvailable s ownerId fragId value).2
      rw [updateFragsAvailable, hsel]
      exact treeInv_updateWhere s inv fragId ownerId _
        (fun f => ⟨rfl, rfl, rfl⟩)

/-- Every reachable store satisfies the tree invariant. -/
theorem treeInv_reachable (s : Store) (h : ReachableWf s) : TreeInv s := by
  induction h with
  | init types rules =>
    refine ⟨?_, ?_, ?_⟩ <;> intro f hf <;> cases hf
  | step op hs hwf ih => exact treeInv_applyOp _ op ih hwf

/-- C8: for every store reachable through pre-validated ledger operations
and every mother present in it, the flat rows of selectFragsForMother
reconstruct to exactly one root (the unique row with null fragOf) and zero
orphans: every non-root row appears in the children list of the row whose id
its fragOf names. -/
theorem tree_reconstruction_spec (s : Store) (hs : ReachableWf s) (m : Nat)
    (hm : ∃ f ∈ s.frags, f.motherId = m) :
    (rootsOf (selectFragsForMother s m)).length = 1 ∧
    ∀ f ∈ selectFragsForMother s m, ∀ p, f.fragOf = some p →
      ∃ g ∈ selectFragsForMother s m, g.fragId = p ∧
        f ∈ childrenOf (selectFragsForMother s m) p := by
  obtain ⟨f0, hf0, hf0m⟩ := hm
  have inv := treeInv_reachable s hs
  have hperm : (selectFragsForMother s m).Perm
      (s.frags.filter (fun f => f.motherId == m)) := List.mergeSort_perm _ _
  constructor
  · rw [rootsOf, (List.Perm.filter _ hperm).length_eq, List.filter_filter]
    have h1 := inv.oneRoot f0 hf0
    rw [hf0m] at h1
    exact h1
  · intro f hf p hp
    have hfm : f ∈ s.frags.filter (fun g => g.motherId == m) :=
      hperm.mem_iff.1 hf
    obtain ⟨hfs, hfm2⟩ := List.mem_filter.1 hfm
    obtain ⟨g, hg, hg1, hg2⟩ := inv.parentOk f hfs p hp
    have hgm : g ∈ s.frags.filter (fun x => x.motherId == m) :=
      List.mem_filter.2 ⟨hg, by rw [hg2]; exact hfm2⟩
    refine ⟨g, hperm.mem_iff.2 hgm, hg1, ?_⟩
    rw [childrenOf]
    exact List.mem_filter.2 ⟨hf, by simp [hp]⟩

/-- Attributes for a fresh item with counter 2, as the add-new-item route
would submit. -/
def sampleItemAttrs : ItemAttrs :=
  { timestamp := 3, name := "zoa", type := "Softie", scientificName := none
    flow := "Medium", light := "Medium", hardiness := "Normal"
    growthRate := "Normal", sourceType := none, source := none, cost := none
    size := none, rules := "dbtc", threadId := none, threadUrl := none
    ownerId := 10, dateAcquired := 3, picture := none, notes := none
    fragsAvailable := 2 }

/-- Witness for C8 at the store reached by one insertItem. -/
theorem tree_reconstruction_spec_witness :
    (rootsOf (selectFragsForMother
      (applyOp (emptyStore ["Softie"] ["dbtc"])
        (LedgerOp.insert sampleItemAttrs)) 1)).length = 1 :=
  (tree_reconstruction_spec _
    (ReachableWf.step (LedgerOp.insert sampleItemAttrs)
      (ReachableWf.init ["Softie"] ["dbtc"]) trivial)
    1
    ⟨newRootFrag (emptyStore ["Softie"] ["dbtc"]) sampleItemAttrs,
      by decide, by decide⟩).1

/-!
Claim C9: insertItem validation. The insertItem function itself runs the two
INSERT statements without checks; the rejection of bad attributes comes from
the dbtc schema, whose file is not under src.
-/

/-- Modelled from the spec: raw insertItem attributes as a request body may
supply them, every field possibly absent. The dbtc schema file with its
NOT NULL constraints is not under src; only the INSERT statements and the
enumeration tables (types, rules) queried by getType and validateRules
are. -/
structure RawItemAttrs where
  timestamp : Option Nat
  name : Option String
  type : Option String
  flow : Option String
  light : Option String
  hardiness : Option String
  growthRate : Option String
  rules : Option String
  ownerId : Option Nat
  dateAcquired : Option Nat
  fragsAvailable : Option Int
  scientificName : Option String
  sourceType : Option String
  source : Option String
  cost : Option Int
  size : Option String
  threadId : Option Nat
  threadUrl : Option String
  picture : Option String
  notes : Option String
deriving Repr, DecidableEq

/-- Modelled from the spec: the attributes the schema requires (the columns
INSERT_MOTHER and INSERT_FRAG populate that INSERT_ITEM_NULLABLE_VALUES
does not default to null; the timestamp is always filled by fixDates). -/
def hasRequired (a : RawItemAttrs) : Bool :=
  a.name.isSome && a.type.isSome && a.flow.isSome && a.light.isSome &&
  a.hardiness.isSome && a.growthRate.isSome && a.rules.isSome &&
  a.ownerId.isSome && a.dateAcquired.isSome && a.fragsAvailable.isSome

/-- Modelled from the spec: the classification type and visibility rule
must be recognized enumerated values, i.e. rows of the types and rules
tables. -/
def enumsOk (s : Store) (a : RawItemAttrs) : Bool :=
  (match a.type with
   | some t => s.typesTable.contains t
   | none => false) &&
  (match a.rules with
   | some r => s.rulesTable.contains r
   | none => false)

/-- The bindings insertItem receives once validation passed (the getD
defaults are never reached then; now is the fixDates timestamp). -/
def toItemAttrs (now : Nat) (a : RawItemAttrs) : ItemAttrs :=
  { timestamp := a.timestamp.getD now, name := a.name.getD ""
    type := a.type.getD "", scientificName := a.scientificName
    flow := a.flow.getD "", light := a.light.getD ""
    hardiness := a.hardiness.getD "", growthRate := a.growthRate.getD ""
    sourceType := a.sourceType, source := a.source, cost := a.cost
    size := a.size, rules := a.rules.getD "", threadId := a.threadId
    threadUrl := a.threadUrl, ownerId := a.ownerId.getD 0
    dateAcquired := a.dateAcquired.getD 0, picture := a.picture
    notes := a.notes, fragsAvailable := a.fragsAvailable.getD 0 }

/-- Modelled from the spec: insertItem behind schema validation. A missing
required attribute or an unrecognized type or rule makes the transaction
fail with a ValidationError (none) and roll back, creating neither row;
otherwise the two inserts run atomically. -/
def insertItemChecked (now : Nat) (s : Store) (a : RawItemAttrs) :
    Option (Nat × Nat) × Store :=
  if hasRequired a && enumsOk s a then
    let r := insertItem s (toItemAttrs now a)
    (some r.1, r.2)
  else (none, s)

/-- C9: insertItemChecked fails, creating neither a Mother nor a root Frag,
whenever a required attribute is missing or the type or visibility rule is
not a recognized enumerated value; otherwise it atomically appends one
mother row and its root frag row with fragOf null, alive, and the initial
split counter taken from the attributes. -/
theorem insertItemChecked_spec (now : Nat) (s : Store) (a : RawItemAttrs) :
    ((hasRequired a = false ∨ enumsOk s a = false) →
      insertItemChecked now s a = (none, s)) ∧
    (hasRequired a = true → enumsOk s a = true →
      (insertItemChecked now s a).1 =
        some (s.nextMotherId, s.nextFragId) ∧
      (insertItemChecked now s a).2.mothers =
        s.mothers ++ [newMotherRow s (toItemAttrs now a)] ∧
      (insertItemChecked now s a).2.frags =
        s.frags ++ [newRootFrag s (toItemAttrs now a)] ∧
      (newRootFrag s (toItemAttrs now a)).fragOf = none ∧
      (newRootFrag s (toItemAttrs now a)).isAlive = true ∧
      (newRootFrag s (toItemAttrs now a)).fragsAvailable =
        (toItemAttrs now a).fragsAvailable) := by
  constructor
  · intro h
    rcases h with h | h <;> simp [insertItemChecked, h]
  · intro h1 h2
    rw [insertItemChecked, if_pos (by rw [h1, h2]; rfl)]
    exact ⟨rfl, rfl, rfl, rfl, rfl, rfl⟩

/-- A fully populated attribute set matching the fixture enumerations. -/
def rawGood : RawItemAttrs :=
  { timestamp := none, name := some "zoa", type := some "Softie"
    flow := some "Medium", light := some "Medium"
    hardiness := some "Normal", growthRate := some "Normal"
    rules := some "dbtc", ownerId := some 10, dateAcquired := some 3
    fragsAvailable := some 2, scientificName := none, sourceType := none
    source := none, cost := none, size := none, threadId := none
    threadUrl := none, picture := none, notes := none }

/-- The same attributes with the required display name missing. -/
def rawMissingName : RawItemAttrs := { rawGood with name := none }

/-- Witness for C9: the missing name is rejected with no write, the full
set creates the pair of rows. -/
theorem insertItemChecked_spec_witness :
    insertItemChecked 5 sampleStore rawMissingName = (none, sampleStore) ∧
    (insertItemChecked 5 sampleStore rawGood).1 = some (2, 2) :=
  have h1 := (insertItemChecked_spec 5 sampleStore rawMissingName).1
    (Or.inl (by decide))
  have h2 := (insertItemChecked_spec 5 sampleStore rawGood).2
    (by decide) (by decide)
  ⟨h1, h2.1⟩

/-!
Claim C10: the give-a-frag route removes the recipient from the fans of the
mother after every successful give or transfer.
-/

/-- The result of the Identity Directory lookup (lookupUser lives outside
src): id, display name and the allowed flag the route checks. -/
structure UserRec where
  id : Nat
  name : String
  allowed : Bool
deriving Repr, DecidableEq

/-- The give-a-frag route: validateFrag (owned by the caller, alive, counter
above -1), reject private rules, reject a disallowed or missing recipient
and self-gives, then one giveAFrag transaction, the journal for the
recipient, the journal for the giver, and removeFan(recipient, mother of
the source frag). Every rejection and the transaction failure leave the
store untouched. -/
def giveAFragRoute (s : Store) (user : UserRec)
    (recipientLookup : Option UserRec) (body : GiveValues) :
    Option (Int × Nat) × Store :=
  match validateFrag s user.id body.fragOf true (-1) with
  | none => (none, s)
  | some (m, frag) =>
    if m.rules = "private" then (none, s)
    else
      match recipientLookup with
      | none => (none, s)
      | some recipient =>
        if !recipient.allowed then (none, s)
        else if recipient.id == user.id then (none, s)
        else
          match giveAFrag s user.id body with
          | (none, _) => (none, s)
          | (some (fragsAvailable, newFragId), s1) =>
            let s2 := (addJournal s1
              { fragId := newFragId, timestamp := body.dateAcquired
                entryType := some "acquired", picture := none
                notes := some (if body.transfer then
                    "Transferred from " ++ user.name
                  else "Got it from " ++ user.name) }).2
            let s3 := (addJournal s2
              { fragId := body.fragOf, timestamp := body.dateAcquired
                entryType := some "gave", picture := body.picture
                notes := some (if body.transfer then
                    "Transferred to " ++ recipient.name
                  else "Gave a frag to " ++ recipient.name) }).2
            let s4 := removeFan s3 recipient.id frag.motherId
            (some (fragsAvailable, newFragId), s4)

/-- DELETE_FAN erases every (mother, user) fan row, so SELECT_FAN finds
none afterwards. -/
theorem isFan_removeFan (s : Store) (u m : Nat) :
    isFan (removeFan s u m) u m = false := by
  rw [isFan, removeFan]
  have h : (s.fans.filter
      (fun fan => !(fan.motherId == m && fan.userId == u))).find?
      (fun fan => fan.userId == u && fan.motherId == m) = none := by
    rw [List.find?_eq_none]
    intro fan hfan
    have h2 := (List.mem_filter.1 hfan).2
    simp only [Bool.not_eq_eq_eq_not, Bool.not_true, Bool.and_eq_false_imp]
      at h2
    simp only [Bool.and_eq_true, beq_iff_eq, not_and]
    intro hu hm
    have := h2
    simp [hm, hu] at this
  rw [h]
  rfl

/-- C10: after every successful give or transfer through the give-a-frag
route, the recipient is no longer a fan of the mother of the source frag,
whatever the prior fan state. -/
theorem giveRoute_removes_fan (s : Store) (user recipient : UserRec)
    (body : GiveValues) (r : Int × Nat) (m : Mother) (f : Frag)
    (hv : validateFrag s user.id body.fragOf true (-1) = some (m, f))
    (hsucc : (giveAFragRoute s user (some recipient) body).1 = some r) :
    isFan (giveAFragRoute s user (some recipient) body).2
      recipient.id f.motherId = false := by
  by_cases hp : m.rules = "private"
  · have hr : giveAFragRoute s user (some recipient) body = (none, s) := by
      simp [giveAFragRoute, hv, hp]
    rw [hr] at hsucc
    simp at hsucc
  · cases hal : recipient.allowed with
    | false =>
      have hr : giveAFragRoute s user (some recipient) body = (none, s) := by
        simp [giveAFragRoute, hv, hp, hal]
      rw [hr] at hsucc
      simp at hsucc
    | true =>
      cases hid : recipient.id == user.id with
      | true =>
        have hr : giveAFragRoute s user (some recipient) body =
            (none, s) := by
          simp [giveAFragRoute, hv, hp, hal, hid]
        rw [hr] at hsucc
        simp at hsucc
      | false =>
        rcases hg : giveAFrag s user.id body with ⟨ro, s1⟩
        rcases ro with _ | ⟨n, nf⟩
        · have hr : giveAFragRoute s user (some recipient) body =
              (none, s) := by
            simp [giveAFragRoute, hv, hp, hal, hid, hg]
          rw [hr] at hsucc
          simp at hsucc
        · have hr : giveAFragRoute s user (some recipient) body =
              (some (n, nf),
               removeFan (addJournal (addJournal s1
                 { fragId := nf, timestamp := body.dateAcquired
                   entryType := some "acquired", picture := none
                   notes := some (if body.transfer then
                       "Transferred from " ++ user.name
                     else "Got it from " ++ user.name) }).2
                 { fragId := body.fragOf, timestamp := body.dateAcquired
                   entryType := some "gave", picture := body.picture
                   notes := some (if body.transfer then
                       "Transferred to " ++ recipient.name
                     else "Gave a frag to " ++ recipient.name) }).2
                 recipient.id f.motherId) := by
            simp [giveAFragRoute, hv, hp, hal, hid, hg]
          rw [hr]
          exact isFan_removeFan _ recipient.id f.motherId

/-- A store whose fans table already holds the future recipient. -/
def fanStore : Store :=
  { sampleStore with fans := [{ motherId := 1, userId := 20
                                timestamp := 4 }] }

def giverRec : UserRec := { id := 10, name := "gina", allowed := true }

def recipRec : UserRec := { id := 20, name := "rob", allowed := true }

/-- Witness for C10: the recipient was a fan of mother 1 before the give
and is none afterwards. -/
theorem giveRoute_removes_fan_witness :
    isFan fanStore 20 1 = true ∧
    isFan (giveAFragRoute fanStore giverRec (some recipRec)
      sampleSplit).2 20 1 = false := by
  constructor
  · decide
  · exact giveRoute_removes_fan fanStore giverRec recipRec sampleSplit
      ((giveAFragRoute fanStore giverRec (some recipRec)
        sampleSplit).1.getD (0, 0))
      sampleMother sampleFrag (by decide) (by decide)
